import Mathlib

/-!
Verification of the fast-database-clients buffering, scheduling, batching and
dispatch engine.  The definitions below are shallow embeddings of the Python
source under `src/`; the theorems settle the specification claims against them.
-/

namespace FastDB

/-! ## Constants (fast_database_client.py lines 17-18) -/

def MAX_BUFFER_LENGTH : Nat := 65536

def WRITE_BATCH_SIZE : Nat := 5000

/-! ## Bounded buffer: `collections.deque(maxlen=MAX_BUFFER_LENGTH)`

`DatabaseClientBase.__init__` creates `deque(maxlen=MAX_BUFFER_LENGTH)`.
A Python deque with a `maxlen` discards items from the opposite end when an
append would make it longer than `maxlen`. -/

def dequeAppend (maxlen : Nat) (buf : List α) (x : α) : List α :=
  if buf.length + 1 ≤ maxlen then buf ++ [x]
  else (buf ++ [x]).drop (buf.length + 1 - maxlen)

def dequeAppendAll (maxlen : Nat) (buf : List α) (xs : List α) : List α :=
  xs.foldl (dequeAppend maxlen) buf

theorem dequeAppend_length (maxlen : Nat) (buf : List α) (x : α) :
    (dequeAppend maxlen buf x).length = min (buf.length + 1) maxlen := by
  unfold dequeAppend
  split
  · simp; omega
  · simp; omega

theorem dequeAppend_eq_drop (maxlen : Nat) (buf : List α) (x : α) :
    dequeAppend maxlen buf x = (buf ++ [x]).drop (buf.length + 1 - maxlen) := by
  unfold dequeAppend
  split
  · have h : buf.length + 1 - maxlen = 0 := by omega
    rw [h, List.drop_zero]
  · rfl

theorem dequeAppendAll_eq_drop (maxlen : Nat) (buf : List α) (xs : List α)
    (h : buf.length ≤ maxlen) :
    dequeAppendAll maxlen buf xs =
      (buf ++ xs).drop (buf.length + xs.length - maxlen) := by
  induction xs generalizing buf with
  | nil =>
    simp [dequeAppendAll, Nat.sub_eq_zero_of_le h]
  | cons x xs ih =>
    have hstep : dequeAppendAll maxlen buf (x :: xs) =
        dequeAppendAll maxlen (dequeAppend maxlen buf x) xs := rfl
    have hlen : (dequeAppend maxlen buf x).length = min (buf.length + 1) maxlen :=
      dequeAppend_length maxlen buf x
    rw [hstep, ih _ (le_of_eq_of_le hlen (min_le_right _ _)), hlen,
      dequeAppend_eq_drop]
    have hpush : List.drop (buf.length + 1 - maxlen) (buf ++ [x]) ++ xs
        = List.drop (buf.length + 1 - maxlen) ((buf ++ [x]) ++ xs) :=
      (List.drop_append_of_le_length
        (by simp only [List.length_append, List.length_singleton]; omega)).symm
    rw [hpush, List.drop_drop, List.append_assoc]
    congr 1
    simp only [List.length_cons, List.singleton_append]
    try omega

/-! ## Batch extraction (fast_database_client.py lines 107-110)

`metrics = tuple(self.buffer.popleft() for _ in range(min(WRITE_BATCH_SIZE,
len(self.buffer))))`: pop the front element `min(batch, len)` times. -/

def popleftN : Nat → List α → List α × List α
  | 0, buf => ([], buf)
  | _ + 1, [] => ([], [])
  | n + 1, x :: buf =>
    let r := popleftN n buf
    (x :: r.1, r.2)

def extractBatch (batchSize : Nat) (buf : List α) : List α × List α :=
  popleftN (min batchSize buf.length) buf

theorem popleftN_spec (n : Nat) (buf : List α) :
    popleftN n buf = (buf.take n, buf.drop n) := by
  induction n generalizing buf with
  | zero => simp [popleftN]
  | succ n ih =>
    cases buf with
    | nil => simp [popleftN]
    | cons x buf => simp [popleftN, ih]

/-! ## Flush decision (fast_database_client.py lines 105-106)

`time_condition = (time.time() - self._last_write_time) > self.write_interval`
`if self.buffer and (len(self.buffer) > WRITE_BATCH_SIZE or time_condition):`
Time values are embedded as rationals. -/

def writeTrigger (now lastWriteTime writeInterval : ℚ) (bufLen : Nat) : Bool :=
  let time_condition := decide (writeInterval < now - lastWriteTime)
  decide (bufLen ≠ 0) && (decide (WRITE_BATCH_SIZE < bufLen) || time_condition)

/-- Modelled from the spec: the FlushDecision predicate as the spec words it,
`(elapsed_since_last_flush ≥ write_interval) OR (buffer_len ≥ batch_size)`,
kept separate from `writeTrigger` (the code) for comparison. -/
def flushDecisionSpec (elapsed writeInterval : ℚ) (bufLen batchSize : Nat) : Prop :=
  writeInterval ≤ elapsed ∨ batchSize ≤ bufLen

/-- ## Cumulative-size chunking (influx_client.py lines 150-166)

The per-item weight is `len(d.get("field", ""))`; a buffered item is embedded
by the one entry that matters to the chunker, its optional "field" value. -/

structure ChunkItem where
  fieldStr : Option String
deriving DecidableEq

def itemWeight (d : ChunkItem) : Nat := (d.fieldStr.getD "").length

def chunksGo (target : Nat) :
    List ChunkItem → List ChunkItem → Nat → List (List ChunkItem)
  | [], chunk, _ => if chunk.isEmpty then [] else [chunk]
  | d :: rest, chunk, cum =>
    if target < cum + itemWeight d then
      chunk :: chunksGo target rest [d] (itemWeight d)
    else
      chunksGo target rest (chunk ++ [d]) (cum + itemWeight d)

def chunks (lst : List ChunkItem) (target : Nat) : List (List ChunkItem) :=
  chunksGo target lst [] 0

theorem chunksGo_join (target : Nat) (l chunk : List ChunkItem) (cum : Nat) :
    (chunksGo target l chunk cum).flatten = chunk ++ l := by
  induction l generalizing chunk cum with
  | nil =>
    by_cases h : chunk.isEmpty
    · simp [chunksGo, h, List.isEmpty_iff.mp h]
    · simp [chunksGo, h]
  | cons d rest ih =>
    by_cases h : target < cum + itemWeight d
    · simp [chunksGo, h, ih]
    · simp [chunksGo, h, ih]

def chunkBounded (target : Nat) (c : List ChunkItem) : Prop :=
  (c.map itemWeight).sum ≤ target ∨ ∃ d, c = [d] ∧ target < itemWeight d

theorem chunksGo_bounded (target : Nat) (l chunk : List ChunkItem)
    (hc : chunkBounded target chunk) :
    ∀ c ∈ chunksGo target l chunk ((chunk.map itemWeight).sum),
      chunkBounded target c := by
  suffices h : ∀ l chunk cum, cum = (chunk.map itemWeight).sum →
      chunkBounded target chunk →
      ∀ c ∈ chunksGo target l chunk cum, chunkBounded target c from
    h l chunk _ rfl hc
  intro l
  induction l with
  | nil =>
    intro chunk cum _ hb c hmem
    by_cases h : chunk.isEmpty <;> simp [chunksGo, h] at hmem
    subst hmem; exact hb
  | cons d rest ih =>
    intro chunk cum hcum hb c hmem
    by_cases h : target < cum + itemWeight d
    · simp only [chunksGo, if_pos h, List.mem_cons] at hmem
      rcases hmem with rfl | hmem
      · exact hb
      · refine ih [d] (itemWeight d) (by simp) ?_ c hmem
        by_cases hw : itemWeight d ≤ target
        · exact Or.inl (by simpa using hw)
        · exact Or.inr ⟨d, rfl, by omega⟩
    · simp only [chunksGo, if_neg h] at hmem
      refine ih (chunk ++ [d]) (cum + itemWeight d) (by simp [hcum]) ?_ c hmem
      exact Or.inl (by simp [← hcum]; omega)

theorem chunksGo_head_of_ne_nil (target : Nat) (l : List ChunkItem) :
    ∀ chunk cum, chunk ≠ [] →
      ∃ ext tail, chunksGo target l chunk cum = (chunk ++ ext) :: tail := by
  induction l with
  | nil =>
    intro chunk cum hne
    refine ⟨[], [], ?_⟩
    simp [chunksGo, List.isEmpty_iff, hne]
  | cons d rest ih =>
    intro chunk cum hne
    by_cases h : target < cum + itemWeight d
    · exact ⟨[], chunksGo target rest [d] (itemWeight d), by simp [chunksGo, h]⟩
    · obtain ⟨ext, tail, heq⟩ := ih (chunk ++ [d]) (cum + itemWeight d) (by simp)
      exact ⟨[d] ++ ext, tail, by simp [chunksGo, h, heq]⟩

/-! ## Claim theorems C1-C4, C9 -/

/-- C1 counterexample: with a non-empty buffer whose length equals the batch
size exactly (5000) and elapsed time 0 below the write interval 1, the
spec's flush decision says flush, but the code's trigger (which uses strict
comparisons) does not fire. -/
theorem C1_counterexample_equality_no_flush :
    flushDecisionSpec ((0 : ℚ) - 0) 1 5000 WRITE_BATCH_SIZE ∧
    writeTrigger 0 0 1 5000 = false := by
  constructor
  · exact Or.inr (by norm_num [WRITE_BATCH_SIZE])
  · norm_num [writeTrigger, WRITE_BATCH_SIZE]

/-- C1 (amended): on a scheduler tick the code flushes exactly when the buffer
is non-empty and either buffer_len is STRICTLY greater than batch_size or the
elapsed time is STRICTLY greater than write_interval; both comparisons are
strict, so equality in either one does not by itself trigger a flush. -/
theorem C1_flush_trigger_iff (now lastWriteTime writeInterval : ℚ) (bufLen : Nat) :
    writeTrigger now lastWriteTime writeInterval bufLen = true ↔
      bufLen ≠ 0 ∧
        (WRITE_BATCH_SIZE < bufLen ∨ writeInterval < now - lastWriteTime) := by
  simp [writeTrigger]

/-- C2: appending more than the capacity C leaves exactly the most recent C
records, oldest first; the length is exactly C; and once the buffer is at
capacity each further append evicts exactly the oldest record. -/
theorem C2_bounded_buffer_ring (C : Nat) (xs : List Nat) (h0 : 0 < C)
    (h : C < xs.length) :
    (dequeAppendAll C [] xs).length = C ∧
    dequeAppendAll C [] xs = xs.drop (xs.length - C) ∧
    (∀ (buf : List Nat) (x : Nat), buf.length = C →
      dequeAppend C buf x = buf.drop 1 ++ [x]) := by
  have hall := dequeAppendAll_eq_drop C ([] : List Nat) xs (by simp)
  simp only [List.nil_append, List.length_nil, Nat.zero_add] at hall
  refine ⟨?_, hall, ?_⟩
  · rw [hall, List.length_drop]; omega
  · intro buf x hlen
    rw [dequeAppend_eq_drop]
    have h1 : buf.length + 1 - C = 1 := by omega
    rw [h1, List.drop_append_of_le_length (by omega)]

/-- C2 witness: capacity 10, append the integers 0..14, the buffer holds
exactly [5..14] in order and has length 10. -/
theorem C2_bounded_buffer_ring_witness :
    dequeAppendAll 10 [] [0, 1, 2, 3, 4, 5, 6, 7, 8, 9, 10, 11, 12, 13, 14]
      = [5, 6, 7, 8, 9, 10, 11, 12, 13, 14] ∧
    (dequeAppendAll 10 []
      [0, 1, 2, 3, 4, 5, 6, 7, 8, 9, 10, 11, 12, 13, 14]).length = 10 := by
  have h := C2_bounded_buffer_ring 10
    [0, 1, 2, 3, 4, 5, 6, 7, 8, 9, 10, 11, 12, 13, 14]
    (by decide) (by decide)
  exact ⟨h.2.1.trans (by decide), h.1⟩

/-- C3: the batch extracted during a flush from a buffer of length L has size
exactly min(batch_size, L); it consists of the min(batch_size, L) oldest
records in their original order; the buffer afterwards holds exactly the
remaining records in order; and batch ++ remainder reassembles the original
buffer (nothing dropped or duplicated). -/
theorem C3_extract_batch_min (batchSize : Nat) (buf : List Nat) :
    (extractBatch batchSize buf).1.length = min batchSize buf.length ∧
    (extractBatch batchSize buf).1 = buf.take (min batchSize buf.length) ∧
    (extractBatch batchSize buf).2 = buf.drop (min batchSize buf.length) ∧
    (extractBatch batchSize buf).1 ++ (extractBatch batchSize buf).2 = buf := by
  unfold extractBatch
  rw [popleftN_spec]
  refine ⟨?_, rfl, rfl, List.take_append_drop _ _⟩
  simp only [List.length_take]
  omega

/-- C4: every chunk the cumulative-size chunker yields has summed weight at
most the target, unless it is a single item whose weight alone exceeds the
target; and the concatenation of the yielded chunks is exactly the input list
(order preserved, nothing dropped, duplicated or split). -/
theorem C4_chunks_bounded_and_complete (lst : List ChunkItem) (target : Nat) :
    (∀ c ∈ chunks lst target,
      (c.map itemWeight).sum ≤ target ∨ ∃ d, c = [d] ∧ target < itemWeight d) ∧
    (chunks lst target).flatten = lst := by
  constructor
  · intro c hc
    exact chunksGo_bounded target lst [] (Or.inl (by simp)) c hc
  · simpa using chunksGo_join target lst [] 0

/-- C9: when the first item's weight alone exceeds the target, the chunker
yields the empty list as its very first chunk, followed by the chunk that
starts with that oversized item. -/
theorem C9_first_chunk_empty (d : ChunkItem) (rest : List ChunkItem)
    (target : Nat) (h : target < itemWeight d) :
    ∃ ext tail, chunks (d :: rest) target = [] :: (d :: ext) :: tail := by
  unfold chunks
  have hbranch : chunksGo target (d :: rest) [] 0 =
      [] :: chunksGo target rest [d] (itemWeight d) := by
    simp [chunksGo, h]
  obtain ⟨ext, tail, heq⟩ :=
    chunksGo_head_of_ne_nil target rest [d] (itemWeight d) (by simp)
  exact ⟨ext, tail, by rw [hbranch, heq]; simp⟩

/-- C9 witness: a single item of weight 3 against target 2 yields the empty
chunk first, then the chunk holding the item. -/
theorem C9_first_chunk_empty_witness :
    2 < itemWeight ⟨some "abc"⟩ ∧
    ∃ ext tail, chunks [⟨some "abc"⟩] 2 = [] :: ((⟨some "abc"⟩ : ChunkItem) :: ext) :: tail :=
  ⟨by decide, C9_first_chunk_empty ⟨some "abc"⟩ [] 2 (by decide)⟩

/-! ## Python runtime values

Enough of Python's data model to embed the record constructor and the
dict-to-point conversion: strings, ints, floats (as rationals), bools,
datetimes (as rational epoch seconds), dicts (association lists), lists,
and None. -/

inductive PyVal where
  | str (s : String)
  | int (n : Int)
  | float (q : ℚ)
  | bool (b : Bool)
  | datetime (seconds : ℚ)
  | pydict (entries : List (String × PyVal))
  | pylist (xs : List PyVal)
  | pynone

abbrev PyDict := List (String × PyVal)

/-! ## InfluxMetric construction
(fast_database_clients/fast_influxdb_client/influx_metric.py lines 68-149)

The dataclass has attributes measurement, fields, time, tags and
write_precision, in that order.  `__post_init__` calls `check_attributes`
on `asdict(self)` and then, for measurement/fields/tags, raises a `TypeError`
inside a `try` block whenever the attribute is not of the expected top-level
type; the `except TypeError` handler immediately catches it and stores
`_convert_to_expected_type(value, expected_type)` instead, which converts an
int/float to its string form when a string is expected and otherwise returns
the value unchanged. -/

structure InfluxMetricObj where
  measurement : PyVal
  fields : PyVal
  time : PyVal
  tags : PyVal
  write_precision : PyVal

def asdictMetric (m : InfluxMetricObj) : PyDict :=
  [("measurement", m.measurement), ("fields", m.fields), ("time", m.time),
   ("tags", m.tags), ("write_precision", m.write_precision)]

def check_attributes (metric : PyDict) : Except String Bool :=
  if (["measurement", "fields", "time"].all
      (fun k => (metric.lookup k).isSome)) then Except.ok true
  else Except.error "AttributeError"

def isStr : PyVal → Bool
  | .str _ => true
  | _ => false

def isDict : PyVal → Bool
  | .pydict _ => true
  | _ => false

def isNone : PyVal → Bool
  | .pynone => true
  | _ => false

/-- `_convert_to_expected_type` when the expected type is `str`:
int and float convert to their string form, everything else is returned
unchanged. -/
def convertToExpectedStr : PyVal → PyVal
  | .int n => .str (toString n)
  | .float q => .str (toString q)
  | v => v

/-- `_convert_to_expected_type` when the expected type is `dict`:
no conversion branch matches, the value is returned unchanged. -/
def convertToExpectedDict : PyVal → PyVal := fun v => v

/-- One iteration of the `__post_init__` loop for one attribute: the raised
`TypeError` is caught in the same `try`, so the net effect is to store the
converted value whenever the check fails and never to raise. -/
def postInitAttr (isinst : PyVal → Bool) (conv : PyVal → PyVal)
    (v : PyVal) : PyVal :=
  if ¬ isNone v ∧ ¬ isinst v then conv v else v

/-- Constructing `InfluxMetric(measurement, fields, time, tags,
write_precision)`: dataclass `__init__` followed by `__post_init__`. -/
def mkInfluxMetric (measurement fields time tags write_precision : PyVal) :
    Except String InfluxMetricObj := do
  let m : InfluxMetricObj :=
    ⟨measurement, fields, time, tags, write_precision⟩
  let _ ← check_attributes (asdictMetric m)
  let m := { m with
    measurement := postInitAttr isStr convertToExpectedStr m.measurement }
  let m := { m with fields := postInitAttr isDict convertToExpectedDict m.fields }
  let m := { m with tags := postInitAttr isDict convertToExpectedDict m.tags }
  return m

theorem check_attributes_asdict (m : InfluxMetricObj) :
    check_attributes (asdictMetric m) = Except.ok true := by
  rfl

/-- C6 counterexample: a record with an empty measurement name, an empty field
map, and (in `C6_construction_total` below, arbitrary) field values is
accepted at construction; no error is raised. -/
theorem C6_counterexample_invalid_record_accepted :
    mkInfluxMetric (.str "") (.pydict [("v", .pylist [])]) (.float 0)
      (.pydict []) (.str "ns")
      = Except.ok ⟨.str "", .pydict [("v", .pylist [])], .float 0,
          .pydict [], .str "ns"⟩ := by
  rfl

/-- C6 (amended): record construction never raises, whatever the attribute
values: `check_attributes` always passes on a dataclass instance, and the
`TypeError` raised for a wrong top-level attribute type is caught in the same
`try` and replaced by a best-effort conversion.  Neither the non-emptiness of
the name or the field map nor the types of the individual field values is
validated at construction time. -/
theorem C6_construction_total (measurement fields time tags wp : PyVal) :
    mkInfluxMetric measurement fields time tags wp =
      Except.ok ⟨postInitAttr isStr convertToExpectedStr measurement,
        postInitAttr isDict convertToExpectedDict fields, time,
        postInitAttr isDict convertToExpectedDict tags, wp⟩ := by
  rfl

/-! ## dict_to_point (influx_client.py lines 91-121)

`data.pop(key)` on a Python dict removes the entry and returns its value,
raising `KeyError` when absent.  A Python dict never holds a key twice, which
the association-list embedding expresses as a `Nodup` hypothesis on the keys
where it matters. -/

inductive PyErr where
  | keyError (k : String)
  | valueError (msg : String)
  | attributeError (msg : String)
  | timeFormatError

def popKey : PyDict → String → Option (PyVal × PyDict)
  | [], _ => Option.none
  | (k', v) :: rest, k =>
    if k' = k then some (v, rest)
    else (popKey rest k).map (fun r => (r.1, (k', v) :: r.2))

/-- `int()` on a Python float truncates toward zero. -/
def pyIntTrunc (q : ℚ) : Int :=
  if 0 ≤ q then ⌊q⌋ else -⌊-q⌋

/-- influx_metric.py lines 39-65: `convert_time`. -/
def convert_time (t : PyVal) (write_precision : String) : Except PyErr Int :=
  match (if write_precision = "s" then some (1 : ℚ)
    else if write_precision = "ms" then some 1000
    else if write_precision = "us" then some 1000000
    else if write_precision = "ns" then some 1000000000
    else Option.none) with
  | Option.none => Except.error .timeFormatError
  | some time_factor =>
    match t with
    | .datetime s => Except.ok (pyIntTrunc (s * time_factor))
    | .int n => Except.ok (pyIntTrunc ((n : ℚ) * time_factor))
    | .float q => Except.ok (pyIntTrunc (q * time_factor))
    | _ => Except.error .timeFormatError

/-- The external wire point, as far as this code builds one: a name, the
converted timestamp, and the field and tag entries added to it. -/
structure Point where
  name : PyVal
  timeV : Int
  pfields : PyDict
  ptags : PyDict

/-- `.items()` iteration: only defined on a dict value, otherwise Python
raises `AttributeError`. -/
def dictItems : PyVal → Except PyErr PyDict
  | .pydict entries => Except.ok entries
  | _ => Except.error (.attributeError "items")

/-- `dict_to_point` on a dict argument, with `local_tz = None` (the default);
the returned `PyDict` is the caller's dict after the function's `pop` calls
mutated it. -/
def dict_to_point_dict (data : PyDict) (write_precision : String) :
    Except PyErr (Point × PyDict) :=
  match popKey data "measurement" with
  | Option.none => Except.error (.keyError "measurement")
  | some (measurement, data1) =>
    match popKey data1 "time" with
    | Option.none => Except.error (.keyError "time")
    | some (time_value, data2) =>
      match popKey data2 "fields" with
      | Option.none => Except.error (.keyError "fields")
      | some (fieldsV, data3) =>
        match convert_time time_value write_precision with
        | Except.error e => Except.error e
        | Except.ok time_int =>
          match dictItems fieldsV with
          | Except.error e => Except.error e
          | Except.ok fentries =>
            match popKey data3 "tags" with
            | Option.none => Except.ok (⟨measurement, time_int, fentries, []⟩, data3)
            | some (tagsV, data4) =>
              match dictItems tagsV with
              | Except.error e => Except.error e
              | Except.ok tentries =>
                Except.ok (⟨measurement, time_int, fentries, tentries⟩, data4)

/-- The `Union[dict, InfluxMetric]` argument of `dict_to_point`.  A dict is
mutated in place; a dataclass is rebound to `asdict(data)`, a fresh dict, so
the caller's object is untouched.  The result pairs the Point with the
caller-visible post-state of the argument. -/
inductive DataArg where
  | dict (d : PyDict)
  | metric (m : InfluxMetricObj)

def dict_to_point (data : DataArg) (write_precision : String) :
    Except PyErr (Point × DataArg) :=
  match data with
  | .dict d =>
    (dict_to_point_dict d write_precision).map (fun r => (r.1, .dict r.2))
  | .metric m =>
    (dict_to_point_dict (asdictMetric m) write_precision).map
      (fun r => (r.1, .metric m))

theorem lookup_cons (k a : String) (b : PyVal) (rest : PyDict) :
    List.lookup k ((a, b) :: rest) =
      if k = a then some b else List.lookup k rest := by
  by_cases h : k = a
  · subst h; simp [List.lookup]
  · have hb : (k == a) = false := beq_eq_false_iff_ne.mpr h
    simp [List.lookup, hb, h]

theorem popKey_cons (k a : String) (b : PyVal) (rest : PyDict) :
    popKey ((a, b) :: rest) k =
      if a = k then some (b, rest)
      else (popKey rest k).map (fun r => (r.1, (a, b) :: r.2)) := rfl

theorem lookup_eq_none_of_not_mem_keys (d : PyDict) (k : String)
    (h : k ∉ d.map Prod.fst) : d.lookup k = Option.none := by
  induction d with
  | nil => rfl
  | cons p rest ih =>
    obtain ⟨a, b⟩ := p
    simp only [List.map_cons, List.mem_cons] at h
    push_neg at h
    rw [lookup_cons, if_neg h.1, ih h.2]

theorem popKey_sublist (d : PyDict) (k : String) :
    ∀ (v : PyVal) (d' : PyDict), popKey d k = some (v, d') → d'.Sublist d := by
  induction d with
  | nil => intro v d' h; simp [popKey] at h
  | cons p rest ih =>
    intro v d' h
    obtain ⟨a, b⟩ := p
    rw [popKey_cons] at h
    by_cases hk : a = k
    · rw [if_pos hk] at h
      obtain ⟨hv, hd⟩ : b = v ∧ rest = d' := by simpa [Prod.ext_iff] using h
      subst hd
      exact List.sublist_cons_self (a, b) rest
    · rw [if_neg hk] at h
      cases hrec : popKey rest k with
      | none => rw [hrec] at h; simp at h
      | some r =>
        obtain ⟨r1, r2⟩ := r
        rw [hrec] at h
        obtain ⟨hv, hd⟩ : r1 = v ∧ (a, b) :: r2 = d' := by
          simpa [Prod.ext_iff] using h
        subst hd
        exact (ih _ _ hrec).cons₂ (a, b)

theorem popKey_lookup_facts (d : PyDict) (k : String) :
    ∀ (v : PyVal) (d' : PyDict), (d.map Prod.fst).Nodup →
      popKey d k = some (v, d') →
      d'.lookup k = Option.none ∧
      (∀ k2, k2 ≠ k → d'.lookup k2 = d.lookup k2) ∧
      (d'.map Prod.fst).Nodup := by
  induction d with
  | nil => intro v d' _ h; simp [popKey] at h
  | cons p rest ih =>
    intro v d' hnd h
    obtain ⟨a, b⟩ := p
    simp only [List.map_cons, List.nodup_cons] at hnd
    rw [popKey_cons] at h
    by_cases hk : a = k
    · rw [if_pos hk] at h
      obtain ⟨hv, hd⟩ : b = v ∧ rest = d' := by simpa [Prod.ext_iff] using h
      subst hd
      refine ⟨lookup_eq_none_of_not_mem_keys _ _ (hk ▸ hnd.1), ?_, hnd.2⟩
      intro k2 hk2
      rw [lookup_cons, if_neg (by rw [hk]; exact hk2)]
    · rw [if_neg hk] at h
      cases hrec : popKey rest k with
      | none => rw [hrec] at h; simp at h
      | some r =>
        obtain ⟨r1, r2⟩ := r
        rw [hrec] at h
        obtain ⟨hv, hd⟩ : r1 = v ∧ (a, b) :: r2 = d' := by
          simpa [Prod.ext_iff] using h
        subst hd
        obtain ⟨h1, h2, h3⟩ := ih r1 r2 hnd.2 hrec
        have hkeys : r2.map Prod.fst ⊆ rest.map Prod.fst :=
          ((popKey_sublist rest k r1 r2 hrec).map Prod.fst).subset
        refine ⟨?_, ?_, ?_⟩
        · rw [lookup_cons, if_neg (fun hkk => hk hkk.symm), h1]
        · intro k2 hk2
          rw [lookup_cons, lookup_cons]
          by_cases hpk : k2 = a
          · rw [if_pos hpk, if_pos hpk]
          · rw [if_neg hpk, if_neg hpk, h2 k2 hk2]
        · exact List.nodup_cons.mpr ⟨fun hmem => hnd.1 (hkeys hmem), h3⟩

theorem lookup_eq_none_of_popKey_eq_none (d : PyDict) (k : String)
    (h : popKey d k = Option.none) : d.lookup k = Option.none := by
  induction d with
  | nil => rfl
  | cons p rest ih =>
    obtain ⟨a, b⟩ := p
    rw [popKey_cons] at h
    by_cases hk : a = k
    · rw [if_pos hk] at h; exact absurd h (by simp)
    · rw [if_neg hk] at h
      rw [lookup_cons, if_neg (fun hkk => hk hkk.symm)]
      cases hrec : popKey rest k with
      | none => exact ih hrec
      | some r => rw [hrec] at h; exact absurd h (by simp)

theorem popKey_eq_none_of_lookup (d : PyDict) (k : String)
    (h : d.lookup k = Option.none) : popKey d k = Option.none := by
  induction d with
  | nil => rfl
  | cons p rest ih =>
    obtain ⟨a, b⟩ := p
    rw [lookup_cons] at h
    by_cases hk : k = a
    · rw [if_pos hk] at h; exact absurd h (by simp)
    · rw [if_neg hk] at h
      rw [popKey_cons, if_neg (fun hkk => hk hkk.symm), ih h]
      rfl

/-- C10: converting a dict to a wire point mutates the caller's dict: the
keys measurement, time, fields and tags are all absent afterwards, so a
second conversion of the same dict raises KeyError("measurement"); a
dataclass argument is rebound to a fresh `asdict` copy, so the caller's
object is returned unchanged. -/
theorem C10_dict_to_point_consumes_keys (d : PyDict) (wp : String)
    (pt : Point) (d' : PyDict)
    (hnd : (d.map Prod.fst).Nodup)
    (h : dict_to_point_dict d wp = Except.ok (pt, d')) :
    d'.lookup "measurement" = Option.none ∧
    d'.lookup "time" = Option.none ∧
    d'.lookup "fields" = Option.none ∧
    d'.lookup "tags" = Option.none ∧
    dict_to_point_dict d' wp = Except.error (.keyError "measurement") ∧
    (∀ (m : InfluxMetricObj) (r : Point × DataArg),
      dict_to_point (.metric m) wp = Except.ok r → r.2 = DataArg.metric m) := by
  have hmetric : ∀ (m : InfluxMetricObj) (r : Point × DataArg),
      dict_to_point (.metric m) wp = Except.ok r → r.2 = DataArg.metric m := by
    intro m r hr
    simp only [dict_to_point] at hr
    cases hmm : dict_to_point_dict (asdictMetric m) wp with
    | error e => rw [hmm] at hr; exact absurd hr (by simp [Except.map])
    | ok q =>
      rw [hmm] at hr
      have hq : r = (q.1, DataArg.metric m) := by
        simpa [Except.map] using hr.symm
      rw [hq]
  have hsecond : ∀ e : PyDict, e.lookup "measurement" = Option.none →
      dict_to_point_dict e wp = Except.error (.keyError "measurement") := by
    intro e he
    unfold dict_to_point_dict
    rw [popKey_eq_none_of_lookup e "measurement" he]
  unfold dict_to_point_dict at h
  cases hm : popKey d "measurement" with
  | none => simp [hm] at h
  | some rm =>
    obtain ⟨mv, d1⟩ := rm
    simp only [hm] at h
    cases ht : popKey d1 "time" with
    | none => simp [ht] at h
    | some rt =>
      obtain ⟨tv, d2⟩ := rt
      simp only [ht] at h
      cases hf : popKey d2 "fields" with
      | none => simp [hf] at h
      | some rf =>
        obtain ⟨fv, d3⟩ := rf
        simp only [hf] at h
        cases hct : convert_time tv wp with
        | error e => simp [hct] at h
        | ok ti =>
          simp only [hct] at h
          cases hfi : dictItems fv with
          | error e => simp [hfi] at h
          | ok fe =>
            simp only [hfi] at h
            have nd1 := popKey_lookup_facts d "measurement" mv d1 hnd hm
            have nd2 := popKey_lookup_facts d1 "time" tv d2 nd1.2.2 ht
            have nd3 := popKey_lookup_facts d2 "fields" fv d3 nd2.2.2 hf
            cases htg : popKey d3 "tags" with
            | none =>
              simp only [htg] at h
              obtain ⟨hpt, hd3⟩ : (⟨mv, ti, fe, []⟩ : Point) = pt ∧ d3 = d' := by
                simpa [Prod.ext_iff] using h
              subst hd3
              have hmeas : d3.lookup "measurement" = Option.none := by
                rw [nd3.2.1 "measurement" (by decide),
                  nd2.2.1 "measurement" (by decide), nd1.1]
              refine ⟨hmeas, ?_, nd3.1, ?_, hsecond d3 hmeas, hmetric⟩
              · rw [nd3.2.1 "time" (by decide), nd2.1]
              · exact lookup_eq_none_of_popKey_eq_none d3 "tags" htg
            | some rtg =>
              obtain ⟨tgv, d4⟩ := rtg
              simp only [htg] at h
              cases hti : dictItems tgv with
              | error e => simp [hti] at h
              | ok te =>
                simp only [hti] at h
                obtain ⟨hpt, hd4⟩ : (⟨mv, ti, fe, te⟩ : Point) = pt ∧ d4 = d' := by
                  simpa [Prod.ext_iff] using h
                subst hd4
                have nd4 := popKey_lookup_facts d3 "tags" tgv d4 nd3.2.2 htg
                have hmeas : d4.lookup "measurement" = Option.none := by
                  rw [nd4.2.1 "measurement" (by decide),
                    nd3.2.1 "measurement" (by decide),
                    nd2.2.1 "measurement" (by decide), nd1.1]
                refine ⟨hmeas, ?_, ?_, nd4.1, hsecond d4 hmeas, hmetric⟩
                · rw [nd4.2.1 "time" (by decide),
                    nd3.2.1 "time" (by decide), nd2.1]
                · rw [nd4.2.1 "fields" (by decide), nd3.1]

/-- C10 witness: a concrete four-key dict converts successfully; afterwards
every conversion-relevant key is gone from the caller's dict and a second
conversion raises KeyError("measurement"). -/
theorem C10_dict_to_point_consumes_keys_witness :
    ([] : PyDict).lookup "measurement" = Option.none ∧
    ([] : PyDict).lookup "tags" = Option.none ∧
    dict_to_point_dict ([] : PyDict) "ns"
      = Except.error (.keyError "measurement") := by
  have h := C10_dict_to_point_consumes_keys
    [("measurement", PyVal.str "m"), ("time", PyVal.int 0),
     ("fields", PyVal.pydict [("v", PyVal.int 1)]), ("tags", PyVal.pydict [])]
    "ns" ⟨PyVal.str "m", 0, [("v", PyVal.int 1)], []⟩ []
    (by decide)
    (by norm_num [dict_to_point_dict, popKey, convert_time, dictItems,
          pyIntTrunc]
        rfl)
  exact ⟨h.1, h.2.2.2.1, h.2.2.2.2.1⟩

/-! ## FastInfluxDBClient.write (influx_client.py lines 373-442)

After resolving org and bucket and converting the metrics, the method loops
over the chunks; for each it builds an ActionOutcome message with the chunk
size, tries the sink write, downgrades the outcome to FAILED on
`InfluxDBError` (logging the discarded batch), and in the `finally` block
always logs the outcome event, then continues with the next chunk. -/

inductive ActionOutcome where
  | SUCCESS
  | FAILED
deriving DecidableEq

structure OutcomeEvent where
  outcome : ActionOutcome
  batchSize : Nat
deriving DecidableEq

structure InfluxDBError where
  msg : String
deriving DecidableEq

structure ConfigErr where
  msg : String
deriving DecidableEq

def writeChunkLoop (sink : List Point → Except InfluxDBError Unit) :
    List (List Point) → List OutcomeEvent
  | [] => []
  | batch :: rest =>
    let outcome := match sink batch with
      | .ok _ => ActionOutcome.SUCCESS
      | .error _ => ActionOutcome.FAILED
    ⟨outcome, batch.length⟩ :: writeChunkLoop sink rest

def FastInfluxDBClient_write (selfOrg orgArg defaultBucket bucketArg : Option String)
    (sink : List Point → Except InfluxDBError Unit)
    (pointChunks : List (List Point)) :
    Except ConfigErr (List OutcomeEvent) :=
  match (match orgArg with
    | some o => some o
    | Option.none => selfOrg) with
  | Option.none => Except.error ⟨"No org specified"⟩
  | some _ =>
    match (match bucketArg with
      | some b => some b
      | Option.none => defaultBucket) with
    | Option.none =>
      Except.error ⟨"No bucket specified, and no default bucket is specified."⟩
    | some _ => Except.ok (writeChunkLoop sink pointChunks)

theorem writeChunkLoop_eq_map (sink : List Point → Except InfluxDBError Unit)
    (chs : List (List Point)) :
    writeChunkLoop sink chs = chs.map (fun b =>
      ⟨match sink b with
        | .ok _ => ActionOutcome.SUCCESS
        | .error _ => ActionOutcome.FAILED, b.length⟩) := by
  induction chs with
  | nil => rfl
  | cons b rest ih => simp [writeChunkLoop, ih]

/-- C5: a delivery error raised by the sink for a chunk is caught at the
flush boundary: `write` still returns normally, one outcome event is emitted
per chunk including the failing ones (so delivery of the remaining chunks
proceeds), a failing chunk's event carries outcome FAILED together with the
discarded chunk's size, and when the sink always fails every event is FAILED
with its batch size; meanwhile the buffer's append operation is unaffected
and keeps the buffer within capacity. -/
theorem C5_delivery_error_isolated (selfOrg bucket : String)
    (sink : List Point → Except InfluxDBError Unit)
    (chs : List (List Point)) :
    FastInfluxDBClient_write (some selfOrg) Option.none (some bucket)
        Option.none sink chs
      = Except.ok (chs.map (fun b =>
          ⟨match sink b with
            | .ok _ => ActionOutcome.SUCCESS
            | .error _ => ActionOutcome.FAILED, b.length⟩)) ∧
    ((∀ b, (sink b).isOk = false) →
      FastInfluxDBClient_write (some selfOrg) Option.none (some bucket)
          Option.none sink chs
        = Except.ok (chs.map (fun b => ⟨ActionOutcome.FAILED, b.length⟩))) ∧
    (∀ (buf : List PyVal) (x : PyVal),
      (dequeAppend MAX_BUFFER_LENGTH buf x).length ≤ MAX_BUFFER_LENGTH ∨
        buf.length + 1 ≤ MAX_BUFFER_LENGTH) := by
  have hmain : FastInfluxDBClient_write (some selfOrg) Option.none (some bucket)
      Option.none sink chs
      = Except.ok (chs.map (fun b =>
          ⟨match sink b with
            | .ok _ => ActionOutcome.SUCCESS
            | .error _ => ActionOutcome.FAILED, b.length⟩)) := by
    unfold FastInfluxDBClient_write
    rw [writeChunkLoop_eq_map]
  refine ⟨hmain, ?_, ?_⟩
  · intro hfail
    rw [hmain]
    congr 1
    apply List.map_congr_left
    intro b _
    cases hb : sink b with
    | ok u =>
      have hf := hfail b
      rw [hb] at hf
      exact absurd hf (by simp [Except.isOk, Except.toBool])
    | error e => rfl
  · intro buf x
    rw [dequeAppend_length]
    left
    omega

/-- C5 witness: with a sink that always fails, two chunks of sizes 1 and 2
produce exactly two FAILED events with discarded sizes 1 and 2, and write
returns normally. -/
theorem C5_delivery_error_isolated_witness :
    FastInfluxDBClient_write (some "org") Option.none (some "bucket")
        Option.none (fun _ => Except.error ⟨"connection refused"⟩)
        [[⟨PyVal.str "m", 0, [], []⟩],
         [⟨PyVal.str "m", 0, [], []⟩, ⟨PyVal.str "n", 1, [], []⟩]]
      = Except.ok [⟨ActionOutcome.FAILED, 1⟩, ⟨ActionOutcome.FAILED, 2⟩] := by
  have h := (C5_delivery_error_isolated "org" "bucket"
    (fun _ => Except.error ⟨"connection refused"⟩)
    [[⟨PyVal.str "m", 0, [], []⟩],
     [⟨PyVal.str "m", 0, [], []⟩, ⟨PyVal.str "n", 1, [], []⟩]]).2.1
    (fun _ => rfl)
  rw [h]
  rfl

/-! ## The write_periodically loop (fast_database_client.py lines 103-121)

The scheduler state carries the buffer and the last-write timestamp together
with the configured write interval.  One tick is the body of the
`while True:` loop: evaluate the trigger; if it fires, pop
`min(WRITE_BATCH_SIZE, len(buffer))` records, hand them to `write`, and set
`last_write_time` to the current time.  The loop contains no `break`, no
`return`, no stop-flag check and no sleep call. -/

structure SchedulerState (α : Type) where
  buffer : List α
  lastWriteTime : ℚ
  writeInterval : ℚ

def writePeriodicallyTick (now : ℚ) (s : SchedulerState α) :
    SchedulerState α × List α :=
  if writeTrigger now s.lastWriteTime s.writeInterval s.buffer.length then
    let r := extractBatch WRITE_BATCH_SIZE s.buffer
    (⟨r.2, now, s.writeInterval⟩, r.1)
  else (s, [])

/-- Running the `while True:` loop for `fuel` ticks, with `nows` the clock
reading of each tick and `stopRequested` whether a stop has been requested
before each tick begins.  `Sum.inl` is the state while the loop is still
running after `fuel` ticks; `Sum.inr` would be a loop exit, which the body
(having no stop-flag check, break or return) never produces. -/
def writePeriodicallyRun (nows : Nat → ℚ) (stopRequested : Nat → Bool) :
    Nat → SchedulerState α → SchedulerState α ⊕ Unit
  | 0, s => Sum.inl s
  | n + 1, s =>
    writePeriodicallyRun (fun i => nows (i + 1)) (fun i => stopRequested (i + 1))
      n (writePeriodicallyTick (nows 0) s).1

/-- C7 counterexample: with a stop requested from the very first tick, the
loop is still running three ticks later (the claim says it exits within one
tick of the stop signal); the stop request cannot influence the loop, which
reads no stop flag. -/
theorem C7_counterexample_no_stop :
    writePeriodicallyRun (fun _ => 0) (fun _ => true) 3
        (⟨([] : List PyVal), 0, 1⟩ : SchedulerState PyVal)
      = Sum.inl ⟨[], 0, 1⟩ := by
  norm_num [writePeriodicallyRun, writePeriodicallyTick, writeTrigger,
    WRITE_BATCH_SIZE]

/-- C7 (amended): `write_periodically` is an unconditional infinite loop: it
checks no stop flag, contains no exit path and no sleep, so it never
terminates regardless of any stop request and of the clock; consequently no
`stop()` protocol exists (`close()` joins the daemon thread, which never
exits). -/
theorem C7_loop_never_exits (nows : Nat → ℚ) (stopRequested : Nat → Bool)
    (fuel : Nat) (s : SchedulerState α) :
    ∃ s', writePeriodicallyRun nows stopRequested fuel s = Sum.inl s' := by
  induction fuel generalizing nows stopRequested s with
  | zero => exact ⟨s, rfl⟩
  | succ n ih =>
    exact ih (fun i => nows (i + 1)) (fun i => stopRequested (i + 1))
      (writePeriodicallyTick (nows 0) s).1

/-! ## MultiInfluxDBClient worker shutdown (influx_client_multi.py)

`DatabaseWriter.run` (lines 48-63): `while True: batch = self.queue.get();
if batch is None: break; self.write(batch)`.  `InfluxDBWriter.write`
(lines 94-104) delivers the batch, and on `InfluxDBError` logs that the batch
failed (the batch is dropped).  `stop_workers` (lines 198-205) puts one
`None` sentinel on the shared JoinableQueue per worker process and then joins
every worker.  The queue is FIFO; worker interleaving is modelled by a step
relation on a dispatcher state. -/

inductive QItem (β : Type) where
  | batch (b : List β)
  | sentinel

inductive WriteReport where
  | delivered
  | discarded
deriving DecidableEq

def workerReport (sink : List β → Except InfluxDBError Unit) (b : List β) :
    WriteReport :=
  match sink b with
  | .ok _ => .delivered
  | .error _ => .discarded

structure WorkerState (β : Type) where
  log : List (List β × WriteReport)
  exited : Bool

structure DispatchState (n : Nat) (β : Type) where
  queue : List (QItem β)
  workers : Fin n → WorkerState β

/-- `stop_workers` enqueues one termination sentinel per worker
(`for _ in self.processes: self.queue.put(None)`). -/
def stopWorkersQueue (pending : List (QItem β)) (n : Nat) : List (QItem β) :=
  pending ++ List.replicate n QItem.sentinel

/-- The channel contents once `stop_workers` has enqueued the sentinels after
the dispatched batches, with all workers started and still running. -/
def initDispatch (batches : List (List β)) (n : Nat) : DispatchState n β :=
  ⟨stopWorkersQueue (batches.map QItem.batch) n, fun _ => ⟨[], false⟩⟩

/-- One receive step of some worker `i` that has not yet exited: it pops the
queue head; a batch is written (delivered, or reported discarded on
`InfluxDBError`) and the worker loops; the sentinel makes it break out of its
receive loop. -/
inductive DStep {n : Nat} {β : Type}
    (sink : List β → Except InfluxDBError Unit) :
    DispatchState n β → DispatchState n β → Prop where
  | recvBatch (s : DispatchState n β) (i : Fin n) (b : List β)
      (rest : List (QItem β))
      (hq : s.queue = QItem.batch b :: rest)
      (hw : (s.workers i).exited = false) :
      DStep sink s ⟨rest, Function.update s.workers i
        ⟨(s.workers i).log ++ [(b, workerReport sink b)], false⟩⟩
  | recvSentinel (s : DispatchState n β) (i : Fin n)
      (rest : List (QItem β))
      (hq : s.queue = QItem.sentinel :: rest)
      (hw : (s.workers i).exited = false) :
      DStep sink s ⟨rest, Function.update s.workers i
        ⟨(s.workers i).log, true⟩⟩

def sentinelCount : List (QItem β) → Nat
  | [] => 0
  | QItem.sentinel :: rest => sentinelCount rest + 1
  | QItem.batch _ :: rest => sentinelCount rest

def queueBatches : List (QItem β) → Multiset (List β)
  | [] => 0
  | QItem.batch b :: rest => b ::ₘ queueBatches rest
  | QItem.sentinel :: rest => queueBatches rest

def workerBatches (w : WorkerState β) : Multiset (List β) :=
  (w.log.map Prod.fst : List (List β))

def exitedFlag (w : WorkerState β) : Nat :=
  if w.exited then 1 else 0

theorem sentinelCount_append (a b : List (QItem β)) :
    sentinelCount (a ++ b) = sentinelCount a + sentinelCount b := by
  induction a with
  | nil => simp [sentinelCount]
  | cons it rest ih =>
    cases it with
    | sentinel => simp [sentinelCount, ih]; omega
    | batch b => simp [sentinelCount, ih]

theorem sentinelCount_map_batch (l : List (List β)) :
    sentinelCount (l.map QItem.batch) = 0 := by
  induction l with
  | nil => rfl
  | cons b rest ih => simp [sentinelCount, ih]

theorem sentinelCount_replicate (n : Nat) :
    sentinelCount (List.replicate n (QItem.sentinel : QItem β)) = n := by
  induction n with
  | zero => rfl
  | succ m ih => simp [List.replicate, sentinelCount, ih]

theorem queueBatches_map_batch (l : List (List β)) :
    queueBatches (l.map QItem.batch) = (l : Multiset (List β)) := by
  induction l with
  | nil => rfl
  | cons b rest ih => simp [queueBatches, ih]

theorem queueBatches_replicate (n : Nat) :
    queueBatches (List.replicate n (QItem.sentinel : QItem β)) = 0 := by
  induction n with
  | zero => rfl
  | succ m ih => simp [List.replicate, queueBatches, ih]

theorem queueBatches_append (a b : List (QItem β)) :
    queueBatches (a ++ b) = queueBatches a + queueBatches b := by
  induction a with
  | nil => simp [queueBatches]
  | cons it rest ih => cases it <;> simp [queueBatches, ih]

theorem sentinelCount_pos_of_mem {q : List (QItem β)}
    (h : (QItem.sentinel : QItem β) ∈ q) : 0 < sentinelCount q := by
  induction q with
  | nil => simp at h
  | cons it rest ih =>
    cases it with
    | sentinel => simp [sentinelCount]
    | batch b =>
      rcases List.mem_cons.mp h with heq | hmem
      · simp at heq
      · simpa [sentinelCount] using ih hmem

theorem getLast_replicate_sentinel (n : Nat) (hn : 0 < n) :
    (List.replicate n (QItem.sentinel : QItem β)).getLast?
      = some QItem.sentinel := by
  induction n with
  | zero => omega
  | succ m ih =>
    cases m with
    | zero => rfl
    | succ k =>
      rw [List.replicate_succ, List.replicate_succ, List.getLast?_cons_cons,
        ← List.replicate_succ]
      exact ih (by omega)

/-- A suffix of the post-`stop_workers` queue that holds no sentinel must be
the empty queue. -/
theorem suffix_no_sentinel_eq_nil (A : List (QItem β)) (n : Nat) (hn : 0 < n)
    (q : List (QItem β))
    (hs : q.IsSuffix (A ++ List.replicate n (QItem.sentinel : QItem β)))
    (hcount : sentinelCount q = 0) : q = [] := by
  by_contra hne
  obtain ⟨t, ht⟩ := hs
  have hrep : (List.replicate n (QItem.sentinel : QItem β)) ≠ [] := by
    cases n with
    | zero => omega
    | succ m => simp [List.replicate]
  have h1 : q.getLast? = (A ++ List.replicate n (QItem.sentinel : QItem β)).getLast? := by
    rw [← ht, List.getLast?_append_of_ne_nil t hne]
  have h2 : q.getLast? = some QItem.sentinel := by
    rw [h1, List.getLast?_append_of_ne_nil A hrep,
      getLast_replicate_sentinel n hn]
  obtain ⟨hq, heq⟩ := List.mem_getLast?_eq_getLast (by rw [h2]; rfl)
  have hmem : (QItem.sentinel : QItem β) ∈ q := heq ▸ List.getLast_mem hq
  exact absurd hcount (by have := sentinelCount_pos_of_mem hmem; omega)

theorem sum_comp_update {n : Nat} {κ : Type} {M : Type} [AddCommMonoid M]
    (f : Fin n → κ) (i : Fin n) (w : κ) (g : κ → M) :
    (∑ j, g (Function.update f i w j)) + g (f i) = (∑ j, g (f j)) + g w := by
  have h1 : (fun j => g (Function.update f i w j))
      = Function.update (fun j => g (f j)) i (g w) := by
    funext j
    by_cases hj : j = i
    · subst hj; simp
    · simp [Function.update_noteq hj]
  rw [h1, Finset.sum_update_of_mem (Finset.mem_univ i), ← Finset.erase_eq,
    ← Finset.add_sum_erase Finset.univ (fun j => g (f j)) (Finset.mem_univ i)]
  abel

/-- The dispatcher invariant: the batches still in the channel plus the
batches some worker already received are exactly the dispatched batches; the
sentinels still in the channel plus the exited workers account for the n
enqueued sentinels; the channel only ever shrinks from the front; and every
log entry reports exactly what the sink did with that batch. -/
def DInv {n : Nat} {β : Type} (sink : List β → Except InfluxDBError Unit)
    (batches : List (List β)) (s : DispatchState n β) : Prop :=
  queueBatches s.queue + ∑ i, workerBatches (s.workers i)
      = (batches : Multiset (List β)) ∧
  sentinelCount s.queue + ∑ i, exitedFlag (s.workers i) = n ∧
  s.queue.IsSuffix (initDispatch batches n).queue ∧
  ∀ i, ∀ p ∈ (s.workers i).log, p.2 = workerReport sink p.1

theorem DInv_init {n : Nat} {β : Type}
    (sink : List β → Except InfluxDBError Unit) (batches : List (List β)) :
    DInv sink batches (initDispatch batches n) := by
  refine ⟨?_, ?_, List.suffix_rfl, ?_⟩
  · simp [initDispatch, stopWorkersQueue, queueBatches_append,
      queueBatches_map_batch, queueBatches_replicate, workerBatches]
  · simp [initDispatch, stopWorkersQueue, sentinelCount_append,
      sentinelCount_map_batch, sentinelCount_replicate, exitedFlag]
  · intro i p hp
    simp [initDispatch] at hp

theorem DInv_step {n : Nat} {β : Type}
    (sink : List β → Except InfluxDBError Unit) (batches : List (List β))
    (s s' : DispatchState n β)
    (hinv : DInv sink batches s) (hstep : DStep sink s s') :
    DInv sink batches s' := by
  obtain ⟨h1, h2, h3, h4⟩ := hinv
  cases hstep with
  | recvBatch i b rest hq hw =>
    set wnew : WorkerState β :=
      ⟨(s.workers i).log ++ [(b, workerReport sink b)], false⟩ with hwdef
    have hwnew : workerBatches wnew = workerBatches (s.workers i) + {b} := by
      simp only [workerBatches, hwdef, List.map_append, List.map_cons,
        List.map_nil]
      rw [← Multiset.coe_add, Multiset.coe_singleton]
    have hsum := sum_comp_update s.workers i wnew workerBatches
    rw [hwnew] at hsum
    have hsum2 : (∑ j, workerBatches (Function.update s.workers i wnew j))
        = (∑ j, workerBatches (s.workers j)) + {b} := by
      have hc : (∑ j, workerBatches (Function.update s.workers i wnew j))
          + workerBatches (s.workers i)
          = ((∑ j, workerBatches (s.workers j)) + {b})
            + workerBatches (s.workers i) := by
        rw [hsum]; abel
      exact add_right_cancel hc
    have hesum := sum_comp_update s.workers i wnew exitedFlag
    have hef0 : exitedFlag (s.workers i) = 0 := by simp [exitedFlag, hw]
    have hefn : exitedFlag wnew = 0 := by simp [exitedFlag, hwdef]
    rw [hef0, hefn] at hesum
    rw [hq] at h1 h2 h3
    simp only [queueBatches] at h1
    simp only [sentinelCount] at h2
    refine ⟨?_, ?_, ?_, ?_⟩
    · show queueBatches rest +
        (∑ j, workerBatches (Function.update s.workers i wnew j)) = _
      rw [hsum2, ← h1, ← Multiset.singleton_add]
      abel
    · show sentinelCount rest +
        (∑ j, exitedFlag (Function.update s.workers i wnew j)) = n
      omega
    · exact List.IsSuffix.trans ⟨[QItem.batch b], rfl⟩ h3
    · intro j p hp
      have hp2 : p ∈ (Function.update s.workers i wnew j).log := hp
      by_cases hj : j = i
      · subst hj
        rw [Function.update_same] at hp2
        rw [hwdef] at hp2
        rcases List.mem_append.mp hp2 with hold | hnew
        · exact h4 j p hold
        · rw [List.mem_singleton.mp hnew]
      · rw [Function.update_noteq hj] at hp2
        exact h4 j p hp2
  | recvSentinel i rest hq hw =>
    set wnew : WorkerState β := ⟨(s.workers i).log, true⟩ with hwdef
    have hwnew : workerBatches wnew = workerBatches (s.workers i) := by
      simp [workerBatches, hwdef]
    have hsum := sum_comp_update s.workers i wnew workerBatches
    rw [hwnew] at hsum
    have hsum2 : (∑ j, workerBatches (Function.update s.workers i wnew j))
        = ∑ j, workerBatches (s.workers j) :=
      add_right_cancel hsum
    have hesum := sum_comp_update s.workers i wnew exitedFlag
    have hef0 : exitedFlag (s.workers i) = 0 := by simp [exitedFlag, hw]
    have hefn : exitedFlag wnew = 1 := by simp [exitedFlag, hwdef]
    rw [hef0, hefn] at hesum
    rw [hq] at h1 h2 h3
    simp only [queueBatches] at h1
    simp only [sentinelCount] at h2
    refine ⟨?_, ?_, ?_, ?_⟩
    · show queueBatches rest +
        (∑ j, workerBatches (Function.update s.workers i wnew j)) = _
      rw [hsum2, h1]
    · show sentinelCount rest +
        (∑ j, exitedFlag (Function.update s.workers i wnew j)) = n
      omega
    · exact List.IsSuffix.trans ⟨[QItem.sentinel], rfl⟩ h3
    · intro j p hp
      have hp2 : p ∈ (Function.update s.workers i wnew j).log := hp
      by_cases hj : j = i
      · subst hj
        rw [Function.update_same] at hp2
        rw [hwdef] at hp2
        exact h4 j p hp2
      · rw [Function.update_noteq hj] at hp2
        exact h4 j p hp2

theorem DInv_reachable {n : Nat} {β : Type}
    (sink : List β → Except InfluxDBError Unit) (batches : List (List β))
    (s : DispatchState n β)
    (h : Relation.ReflTransGen (DStep sink) (initDispatch batches n) s) :
    DInv sink batches s := by
  induction h with
  | refl => exact DInv_init sink batches
  | tail hab hbc ih => exact DInv_step sink batches _ _ ih hbc

/-- C8: once `stop_workers` has enqueued the sentinels, exactly one sentinel
per started worker is on the channel; in every interleaving of the N workers
that reaches the state `stop_workers` waits for (every worker has observed
its sentinel and exited), the channel has been fully drained, the batches
received across the workers are exactly the batches placed on the channel
before the sentinels (none lost, none duplicated), and every received batch
was either delivered or explicitly reported discarded according to the
sink's outcome for it. -/
theorem C8_stop_workers_drains {β : Type} (n : Nat)
    (sink : List β → Except InfluxDBError Unit)
    (batches : List (List β)) (s : DispatchState n β)
    (hn : 0 < n)
    (hreach : Relation.ReflTransGen (DStep sink) (initDispatch batches n) s)
    (hexit : ∀ i, (s.workers i).exited = true) :
    sentinelCount (initDispatch batches n).queue = n ∧
    s.queue = [] ∧
    (∑ i, workerBatches (s.workers i)) = (batches : Multiset (List β)) ∧
    (∀ i, ∀ p ∈ (s.workers i).log, p.2 = workerReport sink p.1) := by
  obtain ⟨h1, h2, h3, h4⟩ := DInv_reachable sink batches s hreach
  have hsent_init : sentinelCount (initDispatch batches n).queue = n := by
    simp [initDispatch, stopWorkersQueue, sentinelCount_append,
      sentinelCount_map_batch, sentinelCount_replicate]
  have hexitsum : (∑ i, exitedFlag (s.workers i)) = n := by
    have hone : ∀ i, exitedFlag (s.workers i) = 1 := fun i => by
      simp [exitedFlag, hexit i]
    rw [Finset.sum_congr rfl (fun i _ => hone i)]
    simp
  have hzero : sentinelCount s.queue = 0 := by omega
  have hqnil : s.queue = [] := by
    apply suffix_no_sentinel_eq_nil (batches.map QItem.batch) n hn s.queue ?_
      hzero
    simpa [initDispatch, stopWorkersQueue] using h3
  refine ⟨hsent_init, hqnil, ?_, h4⟩
  rw [hqnil] at h1
  simpa [queueBatches] using h1

def demoSink : List Nat → Except InfluxDBError Unit := fun _ => Except.ok ()

def demoInit : DispatchState 1 Nat := initDispatch [[7]] 1

def demoMid : DispatchState 1 Nat :=
  ⟨[QItem.sentinel], Function.update demoInit.workers 0
    ⟨(demoInit.workers 0).log ++ [([7], workerReport demoSink [7])], false⟩⟩

def demoFinal : DispatchState 1 Nat :=
  ⟨[], Function.update demoMid.workers 0 ⟨(demoMid.workers 0).log, true⟩⟩

/-- C8 witness: one worker and one dispatched batch [7]: after the worker
receives the batch and then its sentinel, the channel is empty, the worker
received exactly that batch, and exactly one sentinel had been enqueued. -/
theorem C8_stop_workers_drains_witness :
    demoFinal.queue = [] ∧
    (∑ i, workerBatches (demoFinal.workers i))
      = (([[7]] : List (List Nat)) : Multiset (List Nat)) ∧
    sentinelCount (initDispatch ([[7]] : List (List Nat)) 1).queue = 1 := by
  have hstep1 : DStep demoSink demoInit demoMid :=
    DStep.recvBatch demoInit 0 [7] [QItem.sentinel] rfl rfl
  have hstep2 : DStep demoSink demoMid demoFinal :=
    DStep.recvSentinel demoMid 0 [] rfl (by decide)
  have hreach : Relation.ReflTransGen (DStep demoSink) demoInit demoFinal :=
    Relation.ReflTransGen.head hstep1
      (Relation.ReflTransGen.head hstep2 Relation.ReflTransGen.refl)
  have h := C8_stop_workers_drains 1 demoSink [[7]] demoFinal (by decide)
    hreach (by decide)
  exact ⟨h.2.1, h.2.2.1, h.1⟩

end FastDB
